import Mathlib

/-
Verification development for the NRF52 pin abstraction (codal-nrf52).

The repository sources provide the class declaration `src/inc/NRF52Pin.h`;
the implementation file `NRF52Pin.cpp` is not among the sources, so every
behavioural definition below is modelled from the natural-language design
specification (spec.md) of the component, faithful to its words: the pin-mode
state machine (spec 4.1), the LRU PWM channel allocator (spec 4.2), the
edge/pulse event generator (spec 4.3), and the error model (spec 7).
Constants that do appear in the header (such as the PWM channel pool size)
are taken from the header.
-/

namespace NRF52

/-- Pin operating mode, spec 3 "Data model / Pin": Unused, DigitalIn,
DigitalOut, AnalogIn, AnalogOut (PWM), Touch. -/
inductive Mode where
  | Unused
  | DigitalIn
  | DigitalOut
  | AnalogIn
  | AnalogOut
  | Touch
deriving DecidableEq

/-- Pull configuration of a pin (spec 3): Up, Down or None. -/
inductive PullMode where
  | up
  | down
  | none
deriving DecidableEq

/-- Capability set of a pin: which of digital / analog / touch the physical
pin supports.  Fixed at construction, immutable (spec 3). -/
structure Capability where
  digital : Bool
  analog : Bool
  touch : Bool
deriving DecidableEq

/-- Touch sensing strategy, mirroring `enum class TouchMode` of the header. -/
inductive TouchMode where
  | resistive
  | capacitative
deriving DecidableEq

/-- Tag of the peripheral-driver instance currently owned by a pin
(spec 9 suggests re-expressing the polymorphic driver object as a tagged
variant).  A PWM output driver records the index of its bound channel. -/
inductive DriverKind where
  | digitalIn
  | digitalOut
  | analogIn
  | pwmOut (channel : Nat)
  | touchButton (tm : TouchMode)
deriving DecidableEq

/-- Event-generation configuration of a pin, the recorded `eventType` of
`eventOn` / `enableRiseFallEvents` (header lines 365-394, spec 4.3). -/
inductive EvtCfg where
  | none
  | onEdge
  | onPulse
  | onTouch
deriving DecidableEq

/-- Kind of a published semantic event (spec 3 "Event"). -/
inductive EvKind where
  | rise
  | fall
  | pulseHigh
  | pulseLow
  | touchDown
  | touchUp
deriving DecidableEq

/-- A published semantic event: source pin id, kind, and a
timestamp-or-duration payload (spec 3 "Event"). -/
structure Ev where
  source : Nat
  kind : EvKind
  payload : Nat
deriving DecidableEq

/-- Driver lifecycle trace events: the "instrumented fakes counting
construct/destroy calls" of spec 8, used to state the one-driver-per-pin
invariant. -/
inductive TraceEv where
  | create (pid : Nat)
  | destroy (pid : Nat)
deriving DecidableEq

/-- Error kinds of the error-handling design (spec 7). -/
inductive PinError where
  | unsupportedCapability
  | invalidParameter
  | busy
deriving DecidableEq

/-- State of one pin (spec 3 "Pin"): current mode, immutable capability set,
the at-most-one owned driver instance, the driven/sampled digital level, pull,
drive strength, event configuration, pulse-timing state and PWM duty/pulse
settings. -/
structure PinState where
  mode : Mode
  cap : Capability
  driver : Option DriverKind
  level : Bool
  pull : PullMode
  highDrive : Bool
  evtCfg : EvtCfg
  lastEdgeTimestamp : Nat
  duty : Int
  pulseUs : Int
deriving DecidableEq

/-- A bound PWM channel map entry: the owning pin and a recency stamp
(spec 3 "PWM Channel": the bound pin and a recency marker). -/
structure Chan where
  pin : Nat
  stamp : Nat
deriving DecidableEq

/-- Size of the PWM channel pool, `NRF52PIN_PWM_CHANNEL_MAP_SIZE` from
src/inc/NRF52Pin.h line 42. -/
def NRF52PIN_PWM_CHANNEL_MAP_SIZE : Nat := 4

/-- Global system state: the per-pin states, the shared PWM channel map
(the `pwmChannelMap` static of the header, here with recency stamps), a
monotone counter used to stamp recency, the shared PWM period, and the
instrumented driver construct/destroy trace. -/
structure SysState where
  pins : Nat → PinState
  channels : List (Option Chan)
  clock : Nat
  period : Int
  trace : List TraceEv

/-- Update the state of a single pin. -/
def updatePin (s : SysState) (p : Nat) (f : PinState → PinState) : SysState :=
  { s with pins := fun q => if q = p then f (s.pins p) else s.pins q }

/-- Entry of the channel map at an index (out-of-range reads as free). -/
def chanAt : List (Option Chan) → Nat → Option Chan
  | [], _ => Option.none
  | c :: _, 0 => c
  | _ :: r, n + 1 => chanAt r n

/-- Pin bound to the channel at an index, if any. -/
def chanPinAt (l : List (Option Chan)) (i : Nat) : Option Nat :=
  (chanAt l i).map Chan.pin

/-- Write the channel map at an index (no-op when out of range). -/
def setChan : List (Option Chan) → Nat → Option Chan → List (Option Chan)
  | [], _, _ => []
  | _ :: r, 0, v => v :: r
  | c :: r, n + 1, v => c :: setChan r n v

/-- Index of the channel bound to a pin, if any (spec 4.2: "if pin already
holds a channel"). -/
def findChannelOf (pid : Nat) : List (Option Chan) → Option Nat
  | [] => Option.none
  | Option.some c :: r =>
      if c.pin = pid then Option.some 0
      else (findChannelOf pid r).map (fun n => n + 1)
  | Option.none :: r => (findChannelOf pid r).map (fun n => n + 1)

/-- Index of the first free channel, if any (spec 4.2: "if a free channel
exists, bind it"). -/
def firstFree : List (Option Chan) → Option Nat
  | [] => Option.none
  | Option.none :: _ => Option.some 0
  | Option.some _ :: r => (firstFree r).map (fun n => n + 1)

/-- Least-recently-used bound channel: index and entry of the bound channel
with the least recency stamp; ties go to the lowest channel index
(spec 4.2: "Tie-break on simultaneous-recency: evict lowest channel index"). -/
def lruOf : List (Option Chan) → Option (Nat × Chan)
  | [] => Option.none
  | Option.none :: rest =>
      match lruOf rest with
      | Option.none => Option.none
      | Option.some (j, d) => Option.some (j + 1, d)
  | Option.some c :: rest =>
      match lruOf rest with
      | Option.none => Option.some (0, c)
      | Option.some (j, d) =>
          if d.stamp < c.stamp then Option.some (j + 1, d) else Option.some (0, c)

/-- Unbind the channel held by a pin, if any.  Modelled from the spec:
`release(pin)` of the PWM Channel Allocator (spec 4.2); the allocator
implementation is in the absent NRF52Pin.cpp. -/
def releaseChannel (pid : Nat) (s : SysState) : SysState :=
  { s with channels := s.channels.map (fun oc =>
      match oc with
      | Option.some c => if c.pin = pid then Option.none else Option.some c
      | Option.none => Option.none) }

/-- Force a pin back to the neutral disconnected state, destroying its
driver instance if it has one.  Modelled from the spec: the eviction step of
`acquire` — "force that pin back to Unused/disconnected, releasing its
channel" (spec 4.2); the implementation is in the absent NRF52Pin.cpp. -/
def evictPin (ep : Nat) (s : SysState) : SysState :=
  let s1 := updatePin s ep (fun p =>
    { p with mode := Mode.Unused, driver := Option.none, evtCfg := EvtCfg.none })
  { s1 with trace :=
      if (s.pins ep).driver.isSome then s.trace ++ [TraceEv.destroy ep] else s.trace }

/-- Acquire a PWM channel for a pin.  Modelled from the spec:
`acquire(pin) -> channel` of the PWM Channel Allocator (spec 4.2) — refresh
recency if already bound, else bind a free channel, else evict the
least-recently-used bound pin; "this always succeeds — the allocator never
reports exhaustion".  The implementation is in the absent NRF52Pin.cpp. -/
def acquire (pid : Nat) (s : SysState) : Nat × SysState :=
  match findChannelOf pid s.channels with
  | Option.some i =>
      (i, { s with
              channels := setChan s.channels i (Option.some ⟨pid, s.clock⟩),
              clock := s.clock + 1 })
  | Option.none =>
    match firstFree s.channels with
    | Option.some i =>
        (i, { s with
                channels := setChan s.channels i (Option.some ⟨pid, s.clock⟩),
                clock := s.clock + 1 })
    | Option.none =>
      match lruOf s.channels with
      | Option.some (i, c) =>
          let s1 := evictPin c.pin s
          (i, { s1 with
                  channels := setChan s1.channels i (Option.some ⟨pid, s1.clock⟩),
                  clock := s1.clock + 1 })
      | Option.none => (0, s)

/-- Whether a mode is within a pin's capability set (spec 4.1). -/
def capOK (m : Mode) (c : Capability) : Bool :=
  match m with
  | Mode.Unused => true
  | Mode.DigitalIn => c.digital
  | Mode.DigitalOut => c.digital
  | Mode.AnalogIn => c.analog
  | Mode.AnalogOut => c.analog
  | Mode.Touch => c.touch

/-- Tear down any active edge-event or touch-sensing configuration of a pin
(step (a) of `setMode`, spec 4.1).  Modelled from the spec; the
implementation is in the absent NRF52Pin.cpp. -/
def clearEvents (pid : Nat) (s : SysState) : SysState :=
  if (s.pins pid).evtCfg = EvtCfg.none then s
  else updatePin s pid (fun p => { p with evtCfg := EvtCfg.none })

/-- Destroy the peripheral-driver instance currently owned by a pin, if any
(step (b) of `setMode`, spec 4.1); a PWM driver also releases its channel
(spec 3: a channel is "released when the owning pin leaves AnalogOut mode").
Modelled from the spec; the implementation is in the absent NRF52Pin.cpp. -/
def destroyDriver (pid : Nat) (s : SysState) : SysState :=
  match (s.pins pid).driver with
  | Option.none => s
  | Option.some _ =>
      let s2 := updatePin (releaseChannel pid s) pid
        (fun p => { p with driver := Option.none })
      { s2 with trace := s2.trace ++ [TraceEv.destroy pid] }

/-- Construct and bind a fresh peripheral-driver instance and record the new
mode (steps (d)-(e) of `setMode`, spec 4.1).  Modelled from the spec; the
implementation is in the absent NRF52Pin.cpp. -/
def createDriver (pid : Nat) (d : DriverKind) (target : Mode) (s : SysState) : SysState :=
  let s1 := updatePin s pid (fun p => { p with mode := target, driver := Option.some d })
  { s1 with trace := s1.trace ++ [TraceEv.create pid] }

/-- Driver variant for the modes that do not need a PWM channel. -/
def driverForSimple (m : Mode) : DriverKind :=
  match m with
  | Mode.DigitalIn => DriverKind.digitalIn
  | Mode.DigitalOut => DriverKind.digitalOut
  | Mode.AnalogIn => DriverKind.analogIn
  | Mode.Touch => DriverKind.touchButton TouchMode.resistive
  | _ => DriverKind.digitalIn

/-- Change the mode of a pin.  Modelled from the spec:
`setMode(pin, targetMode)` of the Pin Mode Controller (spec 4.1) — no-op if
already in the target mode with an active driver; fails with
UnsupportedCapability, mutating nothing, when the target mode is outside the
pin's capability set; otherwise tears down events and the old driver, then
acquires a PWM channel when needed and constructs the new driver.  The
implementation is in the absent NRF52Pin.cpp. -/
def setMode (pid : Nat) (target : Mode) (s : SysState) :
    Except PinError Unit × SysState :=
  if capOK target (s.pins pid).cap = false then
    (Except.error PinError.unsupportedCapability, s)
  else if (s.pins pid).mode = target ∧ (s.pins pid).driver.isSome = true then
    (Except.ok (), s)
  else
    let s1 := clearEvents pid s
    let s2 := destroyDriver pid s1
    match target with
    | Mode.Unused =>
        (Except.ok (), updatePin s2 pid (fun p => { p with mode := Mode.Unused }))
    | Mode.AnalogOut =>
        let a := acquire pid s2
        (Except.ok (), createDriver pid (DriverKind.pwmOut a.1) Mode.AnalogOut a.2)
    | m => (Except.ok (), createDriver pid (driverForSimple m) m s2)

/-- Initial state of one pin: Unused, no driver (spec 3: initial state
Unused). -/
def initPin (c : Capability) : PinState :=
  { mode := Mode.Unused, cap := c, driver := Option.none, level := false,
    pull := PullMode.none, highDrive := false, evtCfg := EvtCfg.none,
    lastEdgeTimestamp := 0, duty := 0, pulseUs := 0 }

/-- Initial system state: every pin Unused with its construction-time
capability set, all four PWM channels free, empty trace. -/
def initState (caps : Nat → Capability) : SysState :=
  { pins := fun q => initPin (caps q),
    channels := List.replicate NRF52PIN_PWM_CHANNEL_MAP_SIZE Option.none,
    clock := 0, period := 20000, trace := [] }

/-- Whether a mode is an input configuration: "1 if pin is an analog or
digital input, 0 otherwise" (spec 4.1 `isInput`). -/
def isInputMode (m : Mode) : Bool :=
  match m with
  | Mode.DigitalIn => true
  | Mode.AnalogIn => true
  | _ => false

/-- Set a pin's digital value.  Modelled from the spec:
`setDigitalValue(pin, value)` (spec 4.1) — "`value` must be 0 or 1; fails
with `InvalidParameter` otherwise", with no state mutated on failure
(spec 7); otherwise ensures DigitalOut mode, creating the driver if needed,
and writes the value.  The implementation is in the absent NRF52Pin.cpp. -/
def setDigitalValue (pid : Nat) (value : Int) (s : SysState) :
    Except PinError Unit × SysState :=
  if value ≠ 0 ∧ value ≠ 1 then (Except.error PinError.invalidParameter, s)
  else if (s.pins pid).cap.digital = false then
    (Except.error PinError.unsupportedCapability, s)
  else
    let s1 := (setMode pid Mode.DigitalOut s).2
    (Except.ok (), updatePin s1 pid (fun p => { p with level := value == 1 }))

/-- Conditionally set a pin's digital value.  Modelled from the spec:
`getAndSetDigitalValue(pin, value)` (spec 4.1, header lines 412-420) — "if
currently configured as input and the sampled level differs from `value`,
set it and report success; otherwise report busy without changing anything".
The implementation is in the absent NRF52Pin.cpp. -/
def getAndSetDigitalValue (pid : Nat) (value : Bool) (s : SysState) :
    Except PinError Unit × SysState :=
  if isInputMode (s.pins pid).mode = true ∧ (s.pins pid).level ≠ value then
    (Except.ok (), updatePin s pid (fun p => { p with level := value }))
  else (Except.error PinError.busy, s)

/-- Maximum analog output level: the header documents the analog output
value "in the range 0 - 1024" (src/inc/NRF52Pin.h line 190). -/
def DEVICE_PIN_MAX_OUTPUT : Int := 1024

/-- Clamp an analog output value to the legal duty range (spec 4.1:
"clamps `value` to the legal duty range"). -/
def clampDuty (v : Int) : Int := max 0 (min v DEVICE_PIN_MAX_OUTPUT)

/-- Set a pin's analog (PWM) output level.  Modelled from the spec:
`setAnalogValue(pin, value)` (spec 4.1) — "ensures mode AnalogOut (PWM),
clamps `value` to the legal duty range, delegates to the bound PWM channel";
"values outside range are clamped, not rejected" (spec 4.1).  The
implementation is in the absent NRF52Pin.cpp. -/
def setAnalogValue (pid : Nat) (value : Int) (s : SysState) :
    Except PinError Unit × SysState :=
  if (s.pins pid).cap.analog = false then
    (Except.error PinError.unsupportedCapability, s)
  else
    let s1 := (setMode pid Mode.AnalogOut s).2
    (Except.ok (), updatePin s1 pid (fun p => { p with duty := clampDuty value }))

/-- Default servo period in microseconds: the header documents "configures
the period to be 20ms" (src/inc/NRF52Pin.h line 198). -/
def DEVICE_PIN_DEFAULT_SERVO_PERIOD_US : Int := 20000

/-- Set a raw servo pulse width.  Modelled from the spec:
`setServoPulseUs(us)` (spec 4.1) — ensures AnalogOut, configures the 20 ms
period and sets the pulse width, clamped into the legal range rather than
rejected.  The implementation is in the absent NRF52Pin.cpp. -/
def setServoPulseUs (pid : Nat) (pulseWidth : Int) (s : SysState) :
    Except PinError Unit × SysState :=
  if (s.pins pid).cap.analog = false then
    (Except.error PinError.unsupportedCapability, s)
  else
    let s1 := (setMode pid Mode.AnalogOut s).2
    let pw := max 0 (min pulseWidth DEVICE_PIN_DEFAULT_SERVO_PERIOD_US)
    (Except.ok (),
      { updatePin s1 pid (fun p => { p with pulseUs := pw }) with
          period := DEVICE_PIN_DEFAULT_SERVO_PERIOD_US })

/-- Clamp a logical servo value to the documented 0 - 180 range
(spec 4.1: values outside range are clamped, not rejected). -/
def clampServo (v : Int) : Int := max 0 (min v 180)

/-- Set a logical servo value.  Modelled from the spec:
`setServoValue(value, range, center)` (spec 4.1) — a convenience layer
"mapping a 0-180 logical range ... onto duty cycle", with out-of-range
values clamped, not rejected; the header documents value 0 mapping to
center - range/2 and value 180 to center + range/2 (lines 197-214).  The
implementation is in the absent NRF52Pin.cpp. -/
def setServoValue (pid : Nat) (value range center : Int) (s : SysState) :
    Except PinError Unit × SysState :=
  if (s.pins pid).cap.analog = false then
    (Except.error PinError.unsupportedCapability, s)
  else
    setServoPulseUs pid (center - range / 2 + clampServo value * range / 180) s

/-- Scale a raw 12-bit ADC sample onto the documented 10-bit 0 - 1024
result range.  Modelled from the spec: `getAnalogValue` "samples via ADC,
returns 0-1024 (10-bit) scaled result" (spec 4.1); the scaling code is in
the absent NRF52Pin.cpp. -/
def scaleADC (raw : Nat) : Nat := min (raw / 4) 1024

/-- Read a pin's analog value.  Modelled from the spec:
`getAnalogValue(pin)` (spec 4.1) — "ensures mode AnalogIn, samples via ADC,
returns 0-1024 (10-bit) scaled result.  Fails `UnsupportedCapability` if pin
lacks analog capability."  The raw ADC sample is supplied by the external
ADC driver boundary (spec 6).  The implementation is in the absent
NRF52Pin.cpp. -/
def getAnalogValue (pid : Nat) (raw : Nat) (s : SysState) :
    Except PinError Nat × SysState :=
  if (s.pins pid).cap.analog = false then
    (Except.error PinError.unsupportedCapability, s)
  else
    (Except.ok (scaleADC raw), (setMode pid Mode.AnalogIn s).2)

/-- Disable event generation on a pin.  Modelled from the spec:
`disableEvents()` (spec 4.3, header lines 106-112) — "disarms interrupts
and releases any edge-detection driver state; idempotent", and "safe to
call ... including when no event machinery is active (no-op)" (spec 5).
The implementation is in the absent NRF52Pin.cpp. -/
def disableEvents (pid : Nat) (s : SysState) : Except PinError Unit × SysState :=
  if (s.pins pid).evtCfg = EvtCfg.none then (Except.ok (), s)
  else (Except.ok (), updatePin s pid (fun p => { p with evtCfg := EvtCfg.none }))

/-- Arm rise/fall interrupt detection.  Modelled from the spec:
`enableRiseFallEvents(eventType)` (spec 4.3) — "configures the pin as
DigitalIn, arms both-edge interrupt detection, records `eventType`
(Edge-only vs Pulse-duration mode)".  The implementation is in the absent
NRF52Pin.cpp. -/
def enableRiseFallEvents (pid : Nat) (cfg : EvtCfg) (s : SysState) :
    Except PinError Unit × SysState :=
  match (setMode pid Mode.DigitalIn s).1 with
  | Except.error e => (Except.error e, s)
  | Except.ok _ =>
      (Except.ok (), updatePin (setMode pid Mode.DigitalIn s).2 pid
        (fun p => { p with evtCfg := cfg }))

/-- Event type constant `DEVICE_PIN_EVENT_NONE`, the "none" argument of
`eventOn` (header lines 365-394). -/
def DEVICE_PIN_EVENT_NONE : Int := 0

/-- Event type constant `DEVICE_PIN_EVENT_ON_EDGE` (header lines 365-394). -/
def DEVICE_PIN_EVENT_ON_EDGE : Int := 1

/-- Event type constant `DEVICE_PIN_EVENT_ON_PULSE` (header lines 365-394). -/
def DEVICE_PIN_EVENT_ON_PULSE : Int := 2

/-- Event type constant `DEVICE_PIN_EVENT_ON_TOUCH` (header lines 365-394). -/
def DEVICE_PIN_EVENT_ON_TOUCH : Int := 3

/-- Configure the events generated by a pin.  Modelled from the spec and the
header documentation of `eventOn` (src/inc/NRF52Pin.h lines 365-394): on-edge
and on-pulse arm rise/fall detection in the corresponding mode, on-touch
configures touch sensing, none disables events, and any other argument
returns DEVICE_INVALID_PARAMETER.  The implementation is in the absent
NRF52Pin.cpp. -/
def eventOn (pid : Nat) (eventType : Int) (s : SysState) :
    Except PinError Unit × SysState :=
  if eventType = DEVICE_PIN_EVENT_ON_EDGE then
    enableRiseFallEvents pid EvtCfg.onEdge s
  else if eventType = DEVICE_PIN_EVENT_ON_PULSE then
    enableRiseFallEvents pid EvtCfg.onPulse s
  else if eventType = DEVICE_PIN_EVENT_ON_TOUCH then
    match (setMode pid Mode.Touch s).1 with
    | Except.error e => (Except.error e, s)
    | Except.ok _ =>
        (Except.ok (), updatePin (setMode pid Mode.Touch s).2 pid
          (fun p => { p with evtCfg := EvtCfg.onTouch }))
  else if eventType = DEVICE_PIN_EVENT_NONE then
    disableEvents pid s
  else (Except.error PinError.invalidParameter, s)

/-- Rise-interrupt handler.  Modelled from the spec (spec 4.3): "if
`eventType == Pulse`, compute `now - lastEdgeTimestamp`, publish `PulseLow`
with that duration (duration of the just-ended low phase); always publish
`Rise` if `eventType == Edge`; record `lastEdgeTimestamp = now`".  Returns
the new state and the published events.  The implementation is in the
absent NRF52Pin.cpp. -/
def rise (pid : Nat) (now : Nat) (s : SysState) : SysState × List Ev :=
  let p := s.pins pid
  let s1 := updatePin s pid (fun q => { q with lastEdgeTimestamp := now })
  match p.evtCfg with
  | EvtCfg.onPulse => (s1, [⟨pid, EvKind.pulseLow, now - p.lastEdgeTimestamp⟩])
  | EvtCfg.onEdge => (s1, [⟨pid, EvKind.rise, now⟩])
  | _ => (s, [])

/-- Fall-interrupt handler.  Modelled from the spec (spec 4.3): "On fall
interrupt: symmetric — publish `PulseHigh` (duration of just-ended high
phase) or `Fall`; update `lastEdgeTimestamp`".  The implementation is in
the absent NRF52Pin.cpp. -/
def fall (pid : Nat) (now : Nat) (s : SysState) : SysState × List Ev :=
  let p := s.pins pid
  let s1 := updatePin s pid (fun q => { q with lastEdgeTimestamp := now })
  match p.evtCfg with
  | EvtCfg.onPulse => (s1, [⟨pid, EvKind.pulseHigh, now - p.lastEdgeTimestamp⟩])
  | EvtCfg.onEdge => (s1, [⟨pid, EvKind.fall, now⟩])
  | _ => (s, [])

/-- A foreground command: one `setMode` request (the claims about driver
lifetime quantify over all sequences of `setMode` calls). -/
inductive Cmd where
  | setModeCmd (pid : Nat) (m : Mode)

/-- Execute one command. -/
def stepCmd (c : Cmd) (s : SysState) : SysState :=
  match c with
  | Cmd.setModeCmd pid m => (setMode pid m s).2

/-- Execute a sequence of commands. -/
def runCmds : List Cmd → SysState → SysState
  | [], s => s
  | c :: r, s => runCmds r (stepCmd c s)

/-- Projection of the lifecycle trace onto one pin: `true` for a driver
construction, `false` for a destruction. -/
def projPid (pid : Nat) (t : List TraceEv) : List Bool :=
  t.filterMap (fun e =>
    match e with
    | TraceEv.create p => if p = pid then Option.some true else Option.none
    | TraceEv.destroy p => if p = pid then Option.some false else Option.none)

/-- Check that a per-pin lifecycle trace strictly alternates, starting from
the given liveness: a construction is only legal while no instance is alive,
a destruction only while one is. -/
def altFrom (alive : Bool) : List Bool → Bool
  | [] => true
  | b :: r => (b != alive) && altFrom b r

/-- Liveness after a per-pin lifecycle trace, starting from the given
liveness. -/
def lastAlive (alive : Bool) (l : List Bool) : Bool :=
  l.foldl (fun _ b => b) alive

/-- Net number of alive instances recorded by a per-pin lifecycle trace:
constructions count +1, destructions -1. -/
def sumB (l : List Bool) : Int :=
  (l.map (fun b => if b then (1 : Int) else -1)).sum

/-- Number of driver instances alive for a pin according to the
instrumented construct/destroy trace (spec 8). -/
def driversAlive (t : List TraceEv) (pid : Nat) : Int :=
  sumB (projPid pid t)

/-- Instrumentation invariant tying the trace to the ownership slots: for
every pin the projected lifecycle trace alternates construct/destroy
starting with a construct, and its final liveness matches whether the pin
currently owns a driver instance. -/
def invState (s : SysState) : Prop :=
  ∀ pid : Nat, altFrom false (projPid pid s.trace) = true
    ∧ lastAlive false (projPid pid s.trace) = (s.pins pid).driver.isSome

/-- Capability set of a fully capable pin, `PIN_CAPABILITY_ALL`. -/
def capAll : Capability := ⟨true, true, true⟩

/-- Capability set of a digital-only pin, `PIN_CAPABILITY_DIGITAL`. -/
def capDigital : Capability := ⟨true, false, false⟩

/-- Fresh system with fully capable pins, for concrete scenarios. -/
def demo : SysState := initState (fun _ => capAll)

/-- Fresh system with digital-only pins, for concrete scenarios. -/
def demoDig : SysState := initState (fun _ => capDigital)

/-- Demo state with pin 0 configured as a digital input. -/
def demoIn : SysState := stepCmd (Cmd.setModeCmd 0 Mode.DigitalIn) demo

/-- Demo state with pulse events armed on pin 0. -/
def demoPulse : SysState := (enableRiseFallEvents 0 EvtCfg.onPulse demo).2

/-- The concrete scenario of spec 8: five fully capable pins request
AnalogOut in order into the pool of four channels. -/
def scenarioScript : List Cmd :=
  [Cmd.setModeCmd 0 Mode.AnalogOut, Cmd.setModeCmd 1 Mode.AnalogOut,
   Cmd.setModeCmd 2 Mode.AnalogOut, Cmd.setModeCmd 3 Mode.AnalogOut,
   Cmd.setModeCmd 4 Mode.AnalogOut]

/-- Resulting state of the five-pin AnalogOut scenario. -/
def scenarioState : SysState := runCmds scenarioScript demo

/-- A concrete fully bound channel pool: the four channels bound to pins
10, 11, 12, 13 with recency stamps 5, 1, 2, 3 (pin 11 least recent). -/
def fullPool : SysState :=
  { demo with channels :=
      [Option.some ⟨10, 5⟩, Option.some ⟨11, 1⟩,
       Option.some ⟨12, 2⟩, Option.some ⟨13, 3⟩] }

theorem updatePin_pins_same (s : SysState) (p : Nat) (f : PinState → PinState) :
    (updatePin s p f).pins p = f (s.pins p) := by
  simp [updatePin]

theorem updatePin_pins_ne (s : SysState) (p q : Nat) (f : PinState → PinState)
    (h : q ≠ p) : (updatePin s p f).pins q = s.pins q := by
  simp [updatePin, h]

theorem updatePin_trace (s : SysState) (p : Nat) (f : PinState → PinState) :
    (updatePin s p f).trace = s.trace := rfl

theorem releaseChannel_pins (pid : Nat) (s : SysState) :
    (releaseChannel pid s).pins = s.pins := rfl

theorem releaseChannel_trace (pid : Nat) (s : SysState) :
    (releaseChannel pid s).trace = s.trace := rfl

theorem setMode_ensures (pid : Nat) (m : Mode) (s : SysState)
    (hc : capOK m (s.pins pid).cap = true) (hm : m ≠ Mode.Unused) :
    (setMode pid m s).1 = Except.ok ()
    ∧ ((setMode pid m s).2.pins pid).mode = m
    ∧ ((setMode pid m s).2.pins pid).driver.isSome = true := by
  have hc' : ¬ (capOK m (s.pins pid).cap = false) := by simp [hc]
  by_cases hn : (s.pins pid).mode = m ∧ (s.pins pid).driver.isSome = true
  · simp only [setMode, if_neg hc', if_pos hn]
    exact ⟨by trivial, hn.1, hn.2⟩
  · simp only [setMode, if_neg hc', if_neg hn]
    cases m with
    | Unused => exact absurd rfl hm
    | DigitalIn => refine ⟨by trivial, ?_, ?_⟩ <;> simp [createDriver, updatePin]
    | DigitalOut => refine ⟨by trivial, ?_, ?_⟩ <;> simp [createDriver, updatePin]
    | AnalogIn => refine ⟨by trivial, ?_, ?_⟩ <;> simp [createDriver, updatePin]
    | AnalogOut => refine ⟨by trivial, ?_, ?_⟩ <;> simp [createDriver, updatePin]
    | Touch => refine ⟨by trivial, ?_, ?_⟩ <;> simp [createDriver, updatePin]

/-- Claim C2: for every pin and every target mode, a failing `setMode`
returns the state exactly as it was — the pin's mode and its active driver
instance are unchanged, no partial transition is observable — and in
particular a target mode outside the pin's capability set fails with
UnsupportedCapability and mutates nothing. -/
theorem setMode_failure_no_mutation (s : SysState) (pid : Nat) (m : Mode) :
    (∀ e : PinError, (setMode pid m s).1 = Except.error e →
        (setMode pid m s).2 = s
        ∧ ((setMode pid m s).2.pins pid).mode = (s.pins pid).mode
        ∧ ((setMode pid m s).2.pins pid).driver = (s.pins pid).driver
        ∧ e = PinError.unsupportedCapability)
    ∧ (capOK m (s.pins pid).cap = false →
        setMode pid m s = (Except.error PinError.unsupportedCapability, s)) := by
  constructor
  · intro e he
    by_cases hc : capOK m (s.pins pid).cap = false
    · simp only [setMode, if_pos hc] at he ⊢
      refine ⟨by trivial, by trivial, by trivial, ?_⟩
      simp only [Except.error.injEq] at he
      exact he.symm
    · exfalso
      by_cases hn : (s.pins pid).mode = m ∧ (s.pins pid).driver.isSome = true
      · simp only [setMode, if_neg hc, if_pos hn] at he
        cases he
      · simp only [setMode, if_neg hc, if_neg hn] at he
        cases m <;> simp at he
  · intro hc
    simp only [setMode, if_pos hc]

/-- Witness for C2: requesting AnalogOut on a digital-only pin fails with
UnsupportedCapability and leaves the state untouched. -/
theorem setMode_failure_no_mutation_witness :
    (setMode 0 Mode.AnalogOut demoDig).2 = demoDig
    ∧ setMode 0 Mode.AnalogOut demoDig =
        (Except.error PinError.unsupportedCapability, demoDig) := by
  refine ⟨((setMode_failure_no_mutation demoDig 0 Mode.AnalogOut).1
      PinError.unsupportedCapability rfl).1, ?_⟩
  exact (setMode_failure_no_mutation demoDig 0 Mode.AnalogOut).2 rfl

/-- Claim C4: `getAndSetDigitalValue(pin, value)` sets the pin to `value`
and returns success exactly when the pin is currently configured as an
input and its sampled level differs from `value`; in every other case it
returns Busy and changes nothing. -/
theorem getAndSetDigitalValue_spec (s : SysState) (pid : Nat) (v : Bool) :
    ((getAndSetDigitalValue pid v s).1 = Except.ok () ↔
        (isInputMode (s.pins pid).mode = true ∧ (s.pins pid).level ≠ v))
    ∧ ((getAndSetDigitalValue pid v s).1 = Except.ok () →
        ((getAndSetDigitalValue pid v s).2.pins pid).level = v)
    ∧ (¬ (isInputMode (s.pins pid).mode = true ∧ (s.pins pid).level ≠ v) →
        getAndSetDigitalValue pid v s = (Except.error PinError.busy, s)) := by
  by_cases h : isInputMode (s.pins pid).mode = true ∧ (s.pins pid).level ≠ v
  · simp only [getAndSetDigitalValue, if_pos h]
    refine ⟨by simp [h], ?_, by simp [h]⟩
    intro _
    simp [updatePin]
  · simp only [getAndSetDigitalValue, if_neg h]
    refine ⟨by simp [h], by simp, by simp⟩

/-- Witness for C4: on a digital input at level low, setting high succeeds
and the level reads back high; on an Unused pin the call reports Busy and
returns the state unchanged. -/
theorem getAndSetDigitalValue_spec_witness :
    ((getAndSetDigitalValue 0 true demoIn).2.pins 0).level = true
    ∧ getAndSetDigitalValue 0 true demo = (Except.error PinError.busy, demo) := by
  refine ⟨(getAndSetDigitalValue_spec demoIn 0 true).2.1 rfl, ?_⟩
  exact (getAndSetDigitalValue_spec demo 0 true).2.2 (by decide)

/-- Claim C6: on a pin with analog capability, `setAnalogValue` clamps every
value into the legal duty range 0 - 1024 and succeeds, and the servo
convenience operations likewise clamp and succeed; out-of-range values are
never rejected with an error. -/
theorem setAnalogValue_clamps (s : SysState) (pid : Nat) (v range center : Int)
    (h : (s.pins pid).cap.analog = true) :
    (setAnalogValue pid v s).1 = Except.ok ()
    ∧ ((setAnalogValue pid v s).2.pins pid).duty = clampDuty v
    ∧ 0 ≤ clampDuty v ∧ clampDuty v ≤ 1024
    ∧ (setServoValue pid v range center s).1 = Except.ok ()
    ∧ (setServoPulseUs pid v s).1 = Except.ok ()
    ∧ 0 ≤ ((setServoPulseUs pid v s).2.pins pid).pulseUs
    ∧ ((setServoPulseUs pid v s).2.pins pid).pulseUs ≤ 20000 := by
  have h' : ¬ ((s.pins pid).cap.analog = false) := by simp [h]
  refine ⟨?_, ?_, ?_, ?_, ?_, ?_, ?_, ?_⟩
  · simp only [setAnalogValue, if_neg h']
  · simp only [setAnalogValue, if_neg h']
    simp [updatePin]
  · exact le_max_left 0 _
  · exact max_le (by norm_num [DEVICE_PIN_MAX_OUTPUT]) (min_le_right v _)
  · simp only [setServoValue, if_neg h', setServoPulseUs]
  · simp only [setServoPulseUs, if_neg h']
  · simp only [setServoPulseUs, if_neg h']
    simp [updatePin]
  · simp only [setServoPulseUs, if_neg h']
    simp only [updatePin]
    simp [DEVICE_PIN_DEFAULT_SERVO_PERIOD_US]

/-- Witness for C6: on a fully capable pin, the out-of-range request 99999
is clamped to 1024 and succeeds, and the servo operations succeed. -/
theorem setAnalogValue_clamps_witness :
    (setAnalogValue 0 99999 demo).1 = Except.ok ()
    ∧ ((setAnalogValue 0 99999 demo).2.pins 0).duty = 1024
    ∧ (setServoValue 0 99999 2000 1500 demo).1 = Except.ok () := by
  have h := setAnalogValue_clamps demo 0 99999 2000 1500 rfl
  exact ⟨h.1, by rw [h.2.1]; rfl, h.2.2.2.2.1⟩

/-- Claim C7: `setDigitalValue(pin, value)` fails with InvalidParameter and
mutates no state for every value other than 0 or 1; for value 0 or 1 on a
pin with digital capability it ensures DigitalOut mode (creating the driver
if needed), writes the value, and returns success. -/
theorem setDigitalValue_spec (s : SysState) (pid : Nat) (v : Int) :
    (¬ (v = 0 ∨ v = 1) →
        setDigitalValue pid v s = (Except.error PinError.invalidParameter, s))
    ∧ ((v = 0 ∨ v = 1) → (s.pins pid).cap.digital = true →
        (setDigitalValue pid v s).1 = Except.ok ()
        ∧ ((setDigitalValue pid v s).2.pins pid).mode = Mode.DigitalOut
        ∧ ((setDigitalValue pid v s).2.pins pid).driver.isSome = true
        ∧ ((setDigitalValue pid v s).2.pins pid).level = (v == 1)) := by
  constructor
  · intro hv
    have hv' : v ≠ 0 ∧ v ≠ 1 := by
      constructor <;> intro h <;> exact hv (by simp [h])
    simp only [setDigitalValue, if_pos hv']
  · intro hv hd
    have hv' : ¬ (v ≠ 0 ∧ v ≠ 1) := by
      rcases hv with h | h <;> simp [h]
    have hd' : ¬ ((s.pins pid).cap.digital = false) := by simp [hd]
    have hcap : capOK Mode.DigitalOut (s.pins pid).cap = true := by
      simp [capOK, hd]
    have hens := setMode_ensures pid Mode.DigitalOut s hcap (by intro h; cases h)
    simp only [setDigitalValue, if_neg hv', if_neg hd']
    refine ⟨by trivial, ?_, ?_, ?_⟩
    · simp [updatePin, hens.2.1]
    · simp only [updatePin_pins_same]
      exact hens.2.2
    · simp [updatePin]

/-- Witness for C7: value 5 is rejected with InvalidParameter and no state
change; value 1 on a digital-capable pin succeeds, leaves the pin in
DigitalOut with a live driver, and the written level is high. -/
theorem setDigitalValue_spec_witness :
    setDigitalValue 0 5 demo = (Except.error PinError.invalidParameter, demo)
    ∧ (setDigitalValue 0 1 demo).1 = Except.ok ()
    ∧ ((setDigitalValue 0 1 demo).2.pins 0).mode = Mode.DigitalOut
    ∧ ((setDigitalValue 0 1 demo).2.pins 0).level = true := by
  have h1 := (setDigitalValue_spec demo 0 5).1 (by decide)
  have h2 := (setDigitalValue_spec demo 0 1).2 (Or.inr rfl) rfl
  exact ⟨h1, h2.1, h2.2.1, by rw [h2.2.2.2]; rfl⟩

/-- Claim C8: on a pin with analog capability every successful
`getAnalogValue` returns a result in the range 0 - 1024 (10-bit scaled) and
configures the pin as AnalogIn; on a pin lacking analog capability it fails
with UnsupportedCapability. -/
theorem getAnalogValue_spec (s : SysState) (pid : Nat) (raw : Nat) :
    ((s.pins pid).cap.analog = true →
        (getAnalogValue pid raw s).1 = Except.ok (scaleADC raw)
        ∧ scaleADC raw ≤ 1024
        ∧ ((getAnalogValue pid raw s).2.pins pid).mode = Mode.AnalogIn)
    ∧ ((s.pins pid).cap.analog = false →
        getAnalogValue pid raw s = (Except.error PinError.unsupportedCapability, s)) := by
  constructor
  · intro h
    have h' : ¬ ((s.pins pid).cap.analog = false) := by simp [h]
    have hcap : capOK Mode.AnalogIn (s.pins pid).cap = true := by
      simp [capOK, h]
    have hens := setMode_ensures pid Mode.AnalogIn s hcap (by intro hh; cases hh)
    simp only [getAnalogValue, if_neg h']
    exact ⟨by trivial, min_le_right _ _, hens.2.1⟩
  · intro h
    simp only [getAnalogValue, if_pos h]

/-- Witness for C8: a fully capable pin returns the scaled sample 1023 for
raw reading 4095 (within 0 - 1024) and ends in AnalogIn; a digital-only pin
fails with UnsupportedCapability. -/
theorem getAnalogValue_spec_witness :
    (getAnalogValue 0 4095 demo).1 = Except.ok 1023
    ∧ ((getAnalogValue 0 4095 demo).2.pins 0).mode = Mode.AnalogIn
    ∧ getAnalogValue 0 4095 demoDig =
        (Except.error PinError.unsupportedCapability, demoDig) := by
  have h := (getAnalogValue_spec demo 0 4095).1 rfl
  exact ⟨by rw [h.1]; rfl, h.2.2, (getAnalogValue_spec demoDig 0 4095).2 rfl⟩

/-- Claim C9: `disableEvents` is idempotent — a second call leaves the pin
exactly as the first call left it — it always succeeds, and calling it when
no event machinery is active is a no-op returning the state unchanged. -/
theorem disableEvents_idempotent (s : SysState) (pid : Nat) :
    disableEvents pid (disableEvents pid s).2 = disableEvents pid s
    ∧ ((s.pins pid).evtCfg = EvtCfg.none → disableEvents pid s = (Except.ok (), s))
    ∧ (disableEvents pid s).1 = Except.ok () := by
  by_cases h : (s.pins pid).evtCfg = EvtCfg.none
  · simp only [disableEvents, if_pos h]
    exact ⟨by simp only [disableEvents, if_pos h], fun _ => by trivial, by trivial⟩
  · simp only [disableEvents, if_neg h]
    refine ⟨?_, fun hh => absurd hh h, by trivial⟩
    have h2 : ((updatePin s pid (fun p => { p with evtCfg := EvtCfg.none })).pins pid).evtCfg
        = EvtCfg.none := by simp [updatePin]
    simp only [disableEvents, if_pos h2]

/-- Witness for C9: on a pulse-armed pin, disabling twice equals disabling
once; on a fresh pin disabling is a no-op that succeeds. -/
theorem disableEvents_idempotent_witness :
    disableEvents 0 (disableEvents 0 demoPulse).2 = disableEvents 0 demoPulse
    ∧ disableEvents 0 demo = (Except.ok (), demo) := by
  exact ⟨(disableEvents_idempotent demoPulse 0).1,
    (disableEvents_idempotent demo 0).2.1 rfl⟩

theorem chanAt_some_lt : ∀ (l : List (Option Chan)) (i : Nat) (c : Chan),
    chanAt l i = Option.some c → i < l.length := by
  intro l
  induction l with
  | nil => intro i c h; simp [chanAt] at h
  | cons a r ih =>
    intro i c h
    cases i with
    | zero => simp
    | succ n =>
      have := ih n c h
      simp only [List.length_cons]
      omega

theorem chanAt_setChan_self : ∀ (l : List (Option Chan)) (i : Nat) (v : Option Chan),
    i < l.length → chanAt (setChan l i v) i = v := by
  intro l
  induction l with
  | nil => intro i v h; simp at h
  | cons a r ih =>
    intro i v h
    cases i with
    | zero => rfl
    | succ n =>
      have hn : n < r.length := by simp at h; omega
      simpa [setChan, chanAt] using ih n v hn

theorem lru_chanAt : ∀ (l : List (Option Chan)) (j : Nat) (d : Chan),
    lruOf l = Option.some (j, d) → chanAt l j = Option.some d := by
  intro l
  induction l with
  | nil => intro j d h; simp [lruOf] at h
  | cons a r ih =>
    intro j d h
    cases a with
    | none =>
      cases hr : lruOf r with
      | none => simp [lruOf, hr] at h
      | some jd =>
        obtain ⟨j', d'⟩ := jd
        simp only [lruOf, hr, Option.some.injEq, Prod.mk.injEq] at h
        obtain ⟨hj, hd⟩ := h
        subst hj; subst hd
        simpa [chanAt] using ih j' _ hr
    | some c =>
      cases hr : lruOf r with
      | none =>
        simp only [lruOf, hr, Option.some.injEq, Prod.mk.injEq] at h
        obtain ⟨hj, hd⟩ := h
        subst hj; subst hd
        rfl
      | some jd =>
        obtain ⟨j', d'⟩ := jd
        simp only [lruOf, hr] at h
        by_cases hs : d'.stamp < c.stamp
        · rw [if_pos hs] at h
          simp only [Option.some.injEq, Prod.mk.injEq] at h
          obtain ⟨hj, hd⟩ := h
          subst hj; subst hd
          simpa [chanAt] using ih j' _ hr
        · rw [if_neg hs] at h
          simp only [Option.some.injEq, Prod.mk.injEq] at h
          obtain ⟨hj, hd⟩ := h
          subst hj; subst hd
          rfl

theorem lru_none_all : ∀ (l : List (Option Chan)), lruOf l = Option.none →
    ∀ (k : Nat) (c : Chan), chanAt l k ≠ Option.some c := by
  intro l
  induction l with
  | nil => intro _ k c h; cases k <;> simp [chanAt] at h
  | cons a r ih =>
    intro h k c hk
    cases a with
    | none =>
      cases hr : lruOf r with
      | none =>
        cases k with
        | zero => simp [chanAt] at hk
        | succ n => exact ih hr n c hk
      | some jd => obtain ⟨j', d'⟩ := jd; simp [lruOf, hr] at h
    | some cc =>
      cases hr : lruOf r with
      | none => simp [lruOf, hr] at h
      | some jd =>
        obtain ⟨j', d'⟩ := jd
        by_cases hs : d'.stamp < cc.stamp <;> simp [lruOf, hr, hs] at h

theorem lru_min : ∀ (l : List (Option Chan)) (j : Nat) (d : Chan),
    lruOf l = Option.some (j, d) →
    ∀ (k : Nat) (e : Chan), chanAt l k = Option.some e → d.stamp ≤ e.stamp := by
  intro l
  induction l with
  | nil => intro j d h; simp [lruOf] at h
  | cons a r ih =>
    intro j d h k e hk
    cases a with
    | none =>
      cases hr : lruOf r with
      | none => simp [lruOf, hr] at h
      | some jd =>
        obtain ⟨j', d'⟩ := jd
        simp only [lruOf, hr, Option.some.injEq, Prod.mk.injEq] at h
        obtain ⟨hj, hd⟩ := h
        subst hj; subst hd
        cases k with
        | zero => simp [chanAt] at hk
        | succ n => exact ih j' _ hr n e hk
    | some c =>
      cases hr : lruOf r with
      | none =>
        simp only [lruOf, hr, Option.some.injEq, Prod.mk.injEq] at h
        obtain ⟨hj, hd⟩ := h
        subst hj; subst hd
        cases k with
        | zero =>
          simp only [chanAt, Option.some.injEq] at hk
          subst hk; exact le_refl _
        | succ n => exact absurd hk (lru_none_all r hr n e)
      | some jd =>
        obtain ⟨j', d'⟩ := jd
        simp only [lruOf, hr] at h
        by_cases hs : d'.stamp < c.stamp
        · rw [if_pos hs] at h
          simp only [Option.some.injEq, Prod.mk.injEq] at h
          obtain ⟨hj, hd⟩ := h
          subst hj; subst hd
          cases k with
          | zero =>
            simp only [chanAt, Option.some.injEq] at hk
            subst hk; exact le_of_lt hs
          | succ n => exact ih j' _ hr n e hk
        · rw [if_neg hs] at h
          simp only [Option.some.injEq, Prod.mk.injEq] at h
          obtain ⟨hj, hd⟩ := h
          subst hj; subst hd
          cases k with
          | zero =>
            simp only [chanAt, Option.some.injEq] at hk
            subst hk; exact le_refl _
          | succ n =>
            exact le_trans (Nat.le_of_not_lt hs) (ih j' d' hr n e hk)

/-- Claim C1: the PWM channel allocator never reports exhaustion — when no
channel is free and the requesting pin holds none, `acquire` still returns a
channel: it evicts exactly the bound pin with the least recency stamp (the
least-recently-used), forces that pin to Unused with its driver
disconnected, leaves every other pin untouched, and binds the freed channel
to the requester.  Concretely, after pins 0,1,2,3 enter AnalogOut in order
and pin 4 requests AnalogOut, pin 0 is evicted to Unused and pin 4 holds
pin 0's former channel 0. -/
theorem pwm_acquire_lru :
    (∀ (s : SysState) (pid i : Nat) (c : Chan),
        findChannelOf pid s.channels = Option.none →
        firstFree s.channels = Option.none →
        lruOf s.channels = Option.some (i, c) →
          (acquire pid s).1 = i
          ∧ ((acquire pid s).2.pins c.pin).mode = Mode.Unused
          ∧ ((acquire pid s).2.pins c.pin).driver = Option.none
          ∧ chanPinAt (acquire pid s).2.channels i = Option.some pid
          ∧ (∀ q, q ≠ c.pin → (acquire pid s).2.pins q = s.pins q)
          ∧ (∀ (k : Nat) (e : Chan),
              chanAt s.channels k = Option.some e → c.stamp ≤ e.stamp))
    ∧ ((scenarioState.pins 0).mode = Mode.Unused
        ∧ chanPinAt scenarioState.channels 0 = Option.some 4
        ∧ (scenarioState.pins 4).mode = Mode.AnalogOut
        ∧ (scenarioState.pins 4).driver = Option.some (DriverKind.pwmOut 0)) := by
  constructor
  · intro s pid i c h1 h2 h3
    have hc : chanAt s.channels i = Option.some c := lru_chanAt _ _ _ h3
    have hlen : i < s.channels.length := chanAt_some_lt _ _ _ hc
    refine ⟨?_, ?_, ?_, ?_, ?_, lru_min _ _ _ h3⟩
    · simp only [acquire, h1, h2, h3]
    · simp only [acquire, h1, h2, h3]
      simp [evictPin, updatePin]
    · simp only [acquire, h1, h2, h3]
      simp [evictPin, updatePin]
    · simp only [acquire, h1, h2, h3]
      have hch : (evictPin c.pin s).channels = s.channels := rfl
      simp only [chanPinAt, hch]
      rw [chanAt_setChan_self _ _ _ hlen]
      rfl
    · intro q hq
      simp only [acquire, h1, h2, h3]
      simp [evictPin, updatePin, hq]
  · exact ⟨by decide, by decide, by decide, by decide⟩

/-- Witness for C1: a concrete full pool — four channels bound to pins
10, 11, 12, 13 with stamps 5, 1, 2, 3 — where pin 14 requests a channel:
channel 1 (pin 11, least stamp) is evicted, pin 11 reads Unused and
channel 1 is rebound to pin 14. -/
theorem pwm_acquire_lru_witness :
    ((acquire 14 fullPool).1 = 1
      ∧ ((acquire 14 fullPool).2.pins 11).mode = Mode.Unused
      ∧ chanPinAt (acquire 14 fullPool).2.channels 1 = Option.some 14) := by
  have h := pwm_acquire_lru.1 fullPool 14 1 ⟨11, 1⟩ (by decide) (by decide) (by decide)
  exact ⟨h.1, h.2.1, h.2.2.2.1⟩

/-- Claim C5: with pulse events enabled, a fall interrupt at time t after a
rise interrupt at time t0 publishes exactly one PulseHigh event whose
duration payload is t - t0, updates lastEdgeTimestamp to t, and publishes
no Rise or Fall events; symmetrically a rise interrupt publishes exactly
one PulseLow event for the just-ended low phase. -/
theorem pulse_events_spec (s : SysState) (pid : Nat) (t0 t : Nat)
    (h : (s.pins pid).evtCfg = EvtCfg.onPulse) :
    (fall pid t (rise pid t0 s).1).2 = [⟨pid, EvKind.pulseHigh, t - t0⟩]
    ∧ ((fall pid t (rise pid t0 s).1).1.pins pid).lastEdgeTimestamp = t
    ∧ (∀ e ∈ (fall pid t (rise pid t0 s).1).2,
        e.kind ≠ EvKind.rise ∧ e.kind ≠ EvKind.fall)
    ∧ (∀ e ∈ (rise pid t0 s).2, e.kind ≠ EvKind.rise ∧ e.kind ≠ EvKind.fall)
    ∧ (rise pid t (rise pid t0 s).1).2 = [⟨pid, EvKind.pulseLow, t - t0⟩] := by
  simp [rise, fall, h, updatePin]

/-- Witness for C5: the spec 8 pulse-timing scenario — rise at 0, fall at
1000 with pulse events armed on pin 0 publishes exactly one PulseHigh of
duration 1000 and stamps the edge time 1000. -/
theorem pulse_events_spec_witness :
    (fall 0 1000 (rise 0 0 demoPulse).1).2 = [⟨0, EvKind.pulseHigh, 1000⟩]
    ∧ ((fall 0 1000 (rise 0 0 demoPulse).1).1.pins 0).lastEdgeTimestamp = 1000 := by
  have h := pulse_events_spec demoPulse 0 0 1000 rfl
  exact ⟨h.1, h.2.1⟩

/-- Claim C10: `eventOn` rejects every argument other than the four
recognised event types with InvalidParameter, leaving the state (and hence
the pin's event configuration) unchanged; each recognised type succeeds on
a pin with the needed capability and configures the corresponding event
generation. -/
theorem eventOn_spec (s : SysState) (pid : Nat) (et : Int) :
    (¬ (et = DEVICE_PIN_EVENT_NONE ∨ et = DEVICE_PIN_EVENT_ON_EDGE
        ∨ et = DEVICE_PIN_EVENT_ON_PULSE ∨ et = DEVICE_PIN_EVENT_ON_TOUCH) →
        eventOn pid et s = (Except.error PinError.invalidParameter, s))
    ∧ ((s.pins pid).cap.digital = true →
        (eventOn pid DEVICE_PIN_EVENT_ON_EDGE s).1 = Except.ok ()
        ∧ ((eventOn pid DEVICE_PIN_EVENT_ON_EDGE s).2.pins pid).evtCfg = EvtCfg.onEdge
        ∧ (eventOn pid DEVICE_PIN_EVENT_ON_PULSE s).1 = Except.ok ()
        ∧ ((eventOn pid DEVICE_PIN_EVENT_ON_PULSE s).2.pins pid).evtCfg = EvtCfg.onPulse)
    ∧ ((s.pins pid).cap.touch = true →
        (eventOn pid DEVICE_PIN_EVENT_ON_TOUCH s).1 = Except.ok ()
        ∧ ((eventOn pid DEVICE_PIN_EVENT_ON_TOUCH s).2.pins pid).evtCfg = EvtCfg.onTouch)
    ∧ ((eventOn pid DEVICE_PIN_EVENT_NONE s).1 = Except.ok ()
        ∧ ((eventOn pid DEVICE_PIN_EVENT_NONE s).2.pins pid).evtCfg = EvtCfg.none) := by
  refine ⟨?_, ?_, ?_, ?_⟩
  · intro h
    push_neg at h
    simp only [DEVICE_PIN_EVENT_NONE, DEVICE_PIN_EVENT_ON_EDGE,
      DEVICE_PIN_EVENT_ON_PULSE, DEVICE_PIN_EVENT_ON_TOUCH] at h
    simp [eventOn, DEVICE_PIN_EVENT_NONE, DEVICE_PIN_EVENT_ON_EDGE,
      DEVICE_PIN_EVENT_ON_PULSE, DEVICE_PIN_EVENT_ON_TOUCH,
      h.1, h.2.1, h.2.2.1, h.2.2.2]
  · intro hd
    have hcap : capOK Mode.DigitalIn (s.pins pid).cap = true := by simp [capOK, hd]
    have hens := setMode_ensures pid Mode.DigitalIn s hcap (by intro hh; cases hh)
    refine ⟨?_, ?_, ?_, ?_⟩ <;>
      simp [eventOn, enableRiseFallEvents, DEVICE_PIN_EVENT_NONE,
        DEVICE_PIN_EVENT_ON_EDGE, DEVICE_PIN_EVENT_ON_PULSE,
        DEVICE_PIN_EVENT_ON_TOUCH, hens.1, updatePin]
  · intro ht
    have hcap : capOK Mode.Touch (s.pins pid).cap = true := by simp [capOK, ht]
    have hens := setMode_ensures pid Mode.Touch s hcap (by intro hh; cases hh)
    constructor <;>
      simp [eventOn, DEVICE_PIN_EVENT_NONE, DEVICE_PIN_EVENT_ON_EDGE,
        DEVICE_PIN_EVENT_ON_PULSE, DEVICE_PIN_EVENT_ON_TOUCH, hens.1, updatePin]
  · constructor <;>
      by_cases h : (s.pins pid).evtCfg = EvtCfg.none <;>
        simp [eventOn, disableEvents, DEVICE_PIN_EVENT_NONE, DEVICE_PIN_EVENT_ON_EDGE,
          DEVICE_PIN_EVENT_ON_PULSE, DEVICE_PIN_EVENT_ON_TOUCH, h, updatePin]

/-- Witness for C10: argument 7 is rejected with InvalidParameter and the
state is unchanged; on a fully capable pin the four recognised arguments
succeed and configure edge, pulse, touch and disabled event generation. -/
theorem eventOn_spec_witness :
    eventOn 0 7 demo = (Except.error PinError.invalidParameter, demo)
    ∧ ((eventOn 0 DEVICE_PIN_EVENT_ON_EDGE demo).2.pins 0).evtCfg = EvtCfg.onEdge
    ∧ ((eventOn 0 DEVICE_PIN_EVENT_ON_PULSE demo).2.pins 0).evtCfg = EvtCfg.onPulse
    ∧ ((eventOn 0 DEVICE_PIN_EVENT_ON_TOUCH demo).2.pins 0).evtCfg = EvtCfg.onTouch
    ∧ ((eventOn 0 DEVICE_PIN_EVENT_NONE demo).2.pins 0).evtCfg = EvtCfg.none := by
  have h := eventOn_spec demo 0 7
  exact ⟨h.1 (by decide), (h.2.1 rfl).2.1, (h.2.1 rfl).2.2.2,
    (h.2.2.1 rfl).2, h.2.2.2.2⟩

theorem projPid_append (pid : Nat) (t u : List TraceEv) :
    projPid pid (t ++ u) = projPid pid t ++ projPid pid u := by
  simp [projPid]

theorem projPid_create_self (pid : Nat) :
    projPid pid [TraceEv.create pid] = [true] := by
  simp [projPid]

theorem projPid_create_ne (pid q : Nat) (h : q ≠ pid) :
    projPid pid [TraceEv.create q] = [] := by
  simp [projPid, h]

theorem projPid_destroy_self (pid : Nat) :
    projPid pid [TraceEv.destroy pid] = [false] := by
  simp [projPid]

theorem projPid_destroy_ne (pid q : Nat) (h : q ≠ pid) :
    projPid pid [TraceEv.destroy q] = [] := by
  simp [projPid, h]

theorem lastAlive_append (a : Bool) (l m : List Bool) :
    lastAlive a (l ++ m) = lastAlive (lastAlive a l) m := by
  simp [lastAlive, List.foldl_append]

theorem altFrom_append : ∀ (l m : List Bool) (a : Bool),
    altFrom a (l ++ m) = (altFrom a l && altFrom (lastAlive a l) m) := by
  intro l
  induction l with
  | nil => intro m a; simp [altFrom, lastAlive]
  | cons b r ih =>
    intro m a
    simp [altFrom, ih, lastAlive, Bool.and_assoc]

theorem alt_sum : ∀ (l : List Bool) (a : Bool), altFrom a l = true →
    sumB l + (if a then (1 : Int) else 0) = (if lastAlive a l then 1 else 0) := by
  intro l
  induction l with
  | nil => intro a _; simp [sumB, lastAlive]
  | cons b r ih =>
    intro a h
    simp only [altFrom, Bool.and_eq_true] at h
    obtain ⟨h1, h2⟩ := h
    have hsum : sumB (b :: r) = (if b then (1 : Int) else -1) + sumB r := by
      simp [sumB]
    have hl : lastAlive a (b :: r) = lastAlive b r := by simp [lastAlive]
    rw [hsum, hl, ← ih b h2]
    cases a <;> cases b <;> (simp_all; try omega)

theorem invState_of_eq (s s' : SysState) (h : invState s)
    (ht : s'.trace = s.trace)
    (hd : ∀ r, (s'.pins r).driver.isSome = (s.pins r).driver.isSome) :
    invState s' := by
  intro pid
  rw [ht, hd pid]
  exact h pid

theorem invState_destroy (s s' : SysState) (q : Nat) (h : invState s)
    (ht : s'.trace = s.trace ++ [TraceEv.destroy q])
    (hq : (s.pins q).driver.isSome = true)
    (hq' : (s'.pins q).driver.isSome = false)
    (ho : ∀ r, r ≠ q → (s'.pins r).driver.isSome = (s.pins r).driver.isSome) :
    invState s' := by
  intro pid
  obtain ⟨h1, h2⟩ := h pid
  by_cases hpq : pid = q
  · subst hpq
    rw [ht, projPid_append, projPid_destroy_self]
    constructor
    · rw [altFrom_append, h1, h2, hq]
      rfl
    · rw [lastAlive_append, hq']
      rfl
  · have hqp : q ≠ pid := fun hh => hpq hh.symm
    rw [ht, projPid_append, projPid_destroy_ne _ _ hqp, List.append_nil, ho pid hpq]
    exact ⟨h1, h2⟩

theorem invState_create (s s' : SysState) (q : Nat) (h : invState s)
    (ht : s'.trace = s.trace ++ [TraceEv.create q])
    (hq : (s.pins q).driver.isSome = false)
    (hq' : (s'.pins q).driver.isSome = true)
    (ho : ∀ r, r ≠ q → (s'.pins r).driver.isSome = (s.pins r).driver.isSome) :
    invState s' := by
  intro pid
  obtain ⟨h1, h2⟩ := h pid
  by_cases hpq : pid = q
  · subst hpq
    rw [ht, projPid_append, projPid_create_self]
    constructor
    · rw [altFrom_append, h1, h2, hq]
      rfl
    · rw [lastAlive_append, hq']
      rfl
  · have hqp : q ≠ pid := fun hh => hpq hh.symm
    rw [ht, projPid_append, projPid_create_ne _ _ hqp, List.append_nil, ho pid hpq]
    exact ⟨h1, h2⟩

theorem clearEvents_trace (pid : Nat) (s : SysState) :
    (clearEvents pid s).trace = s.trace := by
  unfold clearEvents
  split <;> rfl

theorem clearEvents_driver (pid r : Nat) (s : SysState) :
    ((clearEvents pid s).pins r).driver = (s.pins r).driver := by
  unfold clearEvents
  split
  · rfl
  · by_cases hr : r = pid
    · subst hr; simp [updatePin]
    · simp [updatePin, hr]

theorem invState_clearEvents (pid : Nat) (s : SysState) (h : invState s) :
    invState (clearEvents pid s) :=
  invState_of_eq s _ h (clearEvents_trace pid s)
    (fun r => by rw [clearEvents_driver])

theorem destroyDriver_driver_self (pid : Nat) (s : SysState) :
    ((destroyDriver pid s).pins pid).driver = Option.none := by
  cases hd : (s.pins pid).driver with
  | none => simp only [destroyDriver, hd]
  | some d => simp only [destroyDriver, hd]; simp [updatePin, releaseChannel]

theorem destroyDriver_driver_ne (pid r : Nat) (s : SysState) (hr : r ≠ pid) :
    ((destroyDriver pid s).pins r).driver = (s.pins r).driver := by
  cases hd : (s.pins pid).driver with
  | none => simp only [destroyDriver, hd]
  | some d => simp only [destroyDriver, hd]; simp [updatePin, releaseChannel, hr]

theorem invState_destroyDriver (pid : Nat) (s : SysState) (h : invState s) :
    invState (destroyDriver pid s) := by
  cases hd : (s.pins pid).driver with
  | none => simp only [destroyDriver, hd]; exact h
  | some d =>
    apply invState_destroy s _ pid h
    · simp only [destroyDriver, hd]
      rfl
    · rw [hd]; rfl
    · rw [destroyDriver_driver_self]; rfl
    · intro r hr
      rw [destroyDriver_driver_ne pid r s hr]

theorem invState_evictPin (ep : Nat) (s : SysState) (h : invState s) :
    invState (evictPin ep s) := by
  by_cases hd : (s.pins ep).driver.isSome = true
  · apply invState_destroy s _ ep h
    · simp [evictPin, hd]
    · exact hd
    · simp [evictPin, updatePin]
    · intro r hr
      simp [evictPin, updatePin, hr]
  · have hd' : (s.pins ep).driver.isSome = false := by
      revert hd; cases (s.pins ep).driver.isSome <;> simp
    apply invState_of_eq s _ h
    · simp [evictPin, hd']
    · intro r
      by_cases hr : r = ep
      · subst hr; simp [evictPin, updatePin, hd']
      · simp [evictPin, updatePin, hr]

theorem invState_acquire (pid : Nat) (s : SysState) (h : invState s) :
    invState (acquire pid s).2 := by
  cases hf : findChannelOf pid s.channels with
  | some i =>
    simp only [acquire, hf]
    exact invState_of_eq s _ h rfl (fun r => rfl)
  | none =>
    cases hff : firstFree s.channels with
    | some i =>
      simp only [acquire, hf, hff]
      exact invState_of_eq s _ h rfl (fun r => rfl)
    | none =>
      cases hl : lruOf s.channels with
      | none => simp only [acquire, hf, hff, hl]; exact h
      | some jc =>
        obtain ⟨i, c⟩ := jc
        simp only [acquire, hf, hff, hl]
        exact invState_of_eq (evictPin c.pin s) _ (invState_evictPin c.pin s h)
          rfl (fun r => rfl)

theorem acquire_driver_none (pid r : Nat) (s : SysState)
    (h : (s.pins r).driver = Option.none) :
    ((acquire pid s).2.pins r).driver = Option.none := by
  cases hf : findChannelOf pid s.channels with
  | some i => simp only [acquire, hf]; exact h
  | none =>
    cases hff : firstFree s.channels with
    | some i => simp only [acquire, hf, hff]; exact h
    | none =>
      cases hl : lruOf s.channels with
      | none => simp only [acquire, hf, hff, hl]; exact h
      | some jc =>
        obtain ⟨i, c⟩ := jc
        simp only [acquire, hf, hff, hl]
        by_cases hr : r = c.pin
        · subst hr; simp [evictPin, updatePin]
        · simp [evictPin, updatePin, hr, h]

theorem invState_createDriver (pid : Nat) (d : DriverKind) (m : Mode)
    (s : SysState) (h : invState s) (hq : (s.pins pid).driver = Option.none) :
    invState (createDriver pid d m s) := by
  apply invState_create s _ pid h
  · rfl
  · rw [hq]; rfl
  · simp [createDriver, updatePin]
  · intro r hr
    simp [createDriver, updatePin, hr]

theorem invState_setMode (pid : Nat) (m : Mode) (s : SysState) (h : invState s) :
    invState (setMode pid m s).2 := by
  by_cases hc : capOK m (s.pins pid).cap = false
  · simp only [setMode, if_pos hc]; exact h
  · by_cases hn : (s.pins pid).mode = m ∧ (s.pins pid).driver.isSome = true
    · simp only [setMode, if_neg hc, if_pos hn]; exact h
    · have h1 : invState (clearEvents pid s) := invState_clearEvents pid s h
      have h2 : invState (destroyDriver pid (clearEvents pid s)) :=
        invState_destroyDriver _ _ h1
      have hdn : ((destroyDriver pid (clearEvents pid s)).pins pid).driver
          = Option.none := destroyDriver_driver_self _ _
      cases m with
      | Unused =>
        simp only [setMode, if_neg hc, if_neg hn]
        apply invState_of_eq (destroyDriver pid (clearEvents pid s)) _ h2
        · rfl
        · intro r
          by_cases hr : r = pid
          · subst hr; simp [updatePin]
          · simp [updatePin, hr]
      | AnalogOut =>
        simp only [setMode, if_neg hc, if_neg hn]
        exact invState_createDriver _ _ _ _
          (invState_acquire pid _ h2) (acquire_driver_none pid pid _ hdn)
      | DigitalIn =>
        simp only [setMode, if_neg hc, if_neg hn]
        exact invState_createDriver _ _ _ _ h2 hdn
      | DigitalOut =>
        simp only [setMode, if_neg hc, if_neg hn]
        exact invState_createDriver _ _ _ _ h2 hdn
      | AnalogIn =>
        simp only [setMode, if_neg hc, if_neg hn]
        exact invState_createDriver _ _ _ _ h2 hdn
      | Touch =>
        simp only [setMode, if_neg hc, if_neg hn]
        exact invState_createDriver _ _ _ _ h2 hdn

theorem invState_runCmds : ∀ (cmds : List Cmd) (s : SysState),
    invState s → invState (runCmds cmds s) := by
  intro cmds
  induction cmds with
  | nil => intro s h; exact h
  | cons c r ih =>
    intro s h
    cases c with
    | setModeCmd pid m => exact ih _ (invState_setMode pid m s h)

theorem invState_init (caps : Nat → Capability) : invState (initState caps) := by
  intro pid
  constructor <;> simp [initState, projPid, altFrom, lastAlive, initPin]

/-- Claim C3: over every sequence of `setMode` calls from system bring-up,
every pin owns at most one alive peripheral-driver instance at every
observation point (the instrumented construct-minus-destroy count never
exceeds 1), and the per-pin lifecycle trace strictly alternates starting
with a construction — so each mode change destroys the previous instance
before the next one is created. -/
theorem one_driver_per_pin (cmds : List Cmd) (caps : Nat → Capability) (pid : Nat) :
    driversAlive (runCmds cmds (initState caps)).trace pid ≤ 1
    ∧ altFrom false (projPid pid (runCmds cmds (initState caps)).trace) = true := by
  obtain ⟨h1, h2⟩ := invState_runCmds cmds _ (invState_init caps) pid
  refine ⟨?_, h1⟩
  have hs := alt_sum _ false h1
  simp only [driversAlive]
  cases hla : lastAlive false (projPid pid (runCmds cmds (initState caps)).trace)
  · rw [hla] at hs; simp at hs; omega
  · rw [hla] at hs; simp at hs; omega

end NRF52
